import Mathlib

/-!
Verification of the schema core of `pathway/internals/schema.py`.

The Python module is shallowly embedded: schemas become a structure holding
schema-wide properties and an ordered association list of resolved columns;
Python dict operations become explicit association-list operations with
Python's insert-or-replace and insertion-order semantics; code that raises
becomes `Except`-valued functions whose error constructors mirror the
exception actually raised (`ValueError`, `TypeError`, `AssertionError`,
`KeyError`, `IndexError`).

The external type-algebra module `pathway.internals.dtype` is out of scope
of the repository core; its value universe is embedded as the inductive
`DType` below, and its subtype relation `dtype_issubclass` is kept abstract
(a parameter) wherever the embedded code calls it.
-/

namespace Pathway

/-- Data types supplied by the external `dt` module: base constants plus the
`Optional` wrapper. -/
inductive DType where
  | INT
  | FLOAT
  | BOOL
  | STR
  | ANY
  | NONE
  | ARRAY
  | ANY_TUPLE
  | DATE_TIME_NAIVE
  | DATE_TIME_UTC
  | DURATION
  | optional (t : DType)
deriving DecidableEq, Repr

/-- Python typehints produced by `DType.typehint` (`int`, `float`, `str`,
`typing.Optional[...]`, ...), one tag per dtype constant. -/
inductive TypeHint where
  | int
  | float
  | bool
  | str
  | any
  | noneType
  | ndarray
  | tuple
  | datetimeNaive
  | datetimeUtc
  | duration
  | optional (t : TypeHint)
deriving DecidableEq, Repr

/-- Typehint of a dtype, as exposed by the external `dt` module. -/
def DType.typehint : DType → TypeHint
  | .INT => .int
  | .FLOAT => .float
  | .BOOL => .bool
  | .STR => .str
  | .ANY => .any
  | .NONE => .noneType
  | .ARRAY => .ndarray
  | .ANY_TUPLE => .tuple
  | .DATE_TIME_NAIVE => .datetimeNaive
  | .DATE_TIME_UTC => .datetimeUtc
  | .DURATION => .duration
  | .optional t => .optional t.typehint

/-- Python values usable as column default values. -/
inductive PyValue where
  | int (n : Int)
  | str (s : String)
  | bool (b : Bool)
  | none
deriving DecidableEq, Repr

/-- A column's `default_value` slot: either the `_no_default_value_marker`
sentinel (`_Undefined()`) or an actual value. -/
inductive DefaultVal where
  | undefinedMarker
  | val (v : PyValue)
deriving DecidableEq, Repr

/-- Resolved column (`ColumnSchema` dataclass, frozen). -/
structure ColumnSchema where
  primary_key : Bool
  default_value : DefaultVal
  dtype : DType
  name : String
  append_only : Bool
deriving DecidableEq, Repr

/-- Raw user column spec (`ColumnDefinition` dataclass, frozen). -/
structure ColumnDefinition where
  primary_key : Bool := false
  default_value : DefaultVal := .undefinedMarker
  dtype : Option DType := some .ANY
  name : Option String := Option.none
deriving DecidableEq, Repr

/-- `ColumnSchema.has_default_value`: the default-value slot differs from the
undefined marker. -/
def ColumnSchema.has_default_value (c : ColumnSchema) : Bool :=
  c.default_value ≠ .undefinedMarker

/-- `ColumnSchema.to_definition`. -/
def ColumnSchema.to_definition (c : ColumnSchema) : ColumnDefinition :=
  { primary_key := c.primary_key
    default_value := c.default_value
    dtype := some c.dtype
    name := some c.name }

/-- Schema-wide properties (the `SchemaProperties` dataclass). -/
structure SchemaProperties where
  append_only : Bool := false
deriving DecidableEq, Repr

/-- A schema value: `__properties__` plus the ordered `__columns__` mapping,
embedded as an insertion-ordered association list. -/
structure Schema where
  props : SchemaProperties
  columns : List (String × ColumnSchema)
deriving DecidableEq, Repr

/-! ### Python dict primitives on association lists -/

/-- Dict lookup `d[k]` (first binding wins; a dict never has two). -/
def dictGet (d : List (String × α)) (k : String) : Option α :=
  match d with
  | [] => Option.none
  | (k', v) :: rest => if k' = k then some v else dictGet rest k

/-- Dict assignment `d[k] = v`: replace in place when the key is present,
append otherwise (Python dicts preserve insertion order). -/
def dictSet (d : List (String × α)) (k : String) (v : α) : List (String × α) :=
  match d with
  | [] => [(k, v)]
  | (k', v') :: rest =>
    if k' = k then (k, v) :: rest else (k', v') :: dictSet rest k v

/-- `d.pop(k, default)` without the default: the removed value (if any) and
the remaining dict. -/
def dictPop (d : List (String × α)) (k : String) : Option α × List (String × α) :=
  match d with
  | [] => (Option.none, [])
  | (k', v) :: rest =>
    if k' = k then (some v, rest)
    else
      let r := dictPop rest k
      (r.1, (k', v) :: r.2)

/-- `d.update(m)`. -/
def dictUpdate (d m : List (String × α)) : List (String × α) :=
  m.foldl (fun acc p => dictSet acc p.1 p.2) d

/-- Build a dict from a (possibly key-colliding) sequence of pairs, the way a
Python dict comprehension does. -/
def dictOfList (l : List (String × α)) : List (String × α) :=
  dictUpdate [] l

/-- `ChainMap.__getitem__`: the value in the first map holding the key. -/
def chainFind (maps : List (List (String × α))) (k : String) : Option α :=
  match maps with
  | [] => Option.none
  | m :: rest =>
    match dictGet m k with
    | some v => some v
    | Option.none => chainFind rest k

/-- `dict(ChainMap(*maps))`: iteration order comes from updating an empty
dict with the maps in reversed order, values come from `ChainMap` lookup
(first map wins). -/
def dictOfChainMap (maps : List (List (String × α))) : List (String × α) :=
  (maps.reverse.foldl dictUpdate []).filterMap
    (fun p => (chainFind maps p.1).map (fun v => (p.1, v)))

/-! ### Schema queries -/

/-- `keys()` / `column_names()`: the ordered column names. -/
def schemaKeys (s : Schema) : List String :=
  s.columns.map Prod.fst

/-- `primary_key_columns()`: the ordered primary-key names, or `none` when no
column is flagged primary. -/
def primary_key_columns (s : Schema) : Option (List String) :=
  let pkey_fields := (s.columns.filter (fun p => p.2.primary_key)).map Prod.fst
  if pkey_fields = [] then Option.none else some pkey_fields

/-- `default_values()`: the columns whose default value is set. -/
def default_values (s : Schema) : List (String × DefaultVal) :=
  (s.columns.filter (fun p => p.2.has_default_value)).map
    (fun p => (p.1, p.2.default_value))

/-- `typehints()`: name to typehint of the column's dtype. -/
def typehintsOf (s : Schema) : List (String × TypeHint) :=
  s.columns.map (fun p => (p.1, p.2.dtype.typehint))

/-- `_as_tuple()`: the pair compared by `__eq__` and hashed by `__hash__`. -/
def _as_tuple (s : Schema) :
    SchemaProperties × List (String × ColumnSchema) :=
  (s.props, s.columns)

/-- `__eq__` on schemas: structural comparison of `_as_tuple`. -/
def schemaEq (a b : Schema) : Bool :=
  decide (_as_tuple a = _as_tuple b)

/-! ### A concrete hash, a function of `_as_tuple` exactly as `__hash__` is -/

/-- Hash combinator standing in for Python's tuple-hash mixing. -/
def mixHash (a b : Nat) : Nat :=
  a * 1000003 + b + 1

/-- Structural hash of a dtype. -/
def DType.natHash : DType → Nat
  | .INT => 2
  | .FLOAT => 3
  | .BOOL => 5
  | .STR => 7
  | .ANY => 11
  | .NONE => 13
  | .ARRAY => 17
  | .ANY_TUPLE => 19
  | .DATE_TIME_NAIVE => 23
  | .DATE_TIME_UTC => 29
  | .DURATION => 31
  | .optional t => mixHash 37 t.natHash

/-- Structural hash of a Python value. -/
def PyValue.natHash : PyValue → Nat
  | .int n => mixHash 41 n.natAbs
  | .str s => mixHash 43 s.length
  | .bool b => mixHash 47 (cond b 1 0)
  | .none => 53

/-- Structural hash of a default-value slot. -/
def DefaultVal.natHash : DefaultVal → Nat
  | .undefinedMarker => 59
  | .val v => mixHash 61 v.natHash

/-- Structural hash of a resolved column. -/
def ColumnSchema.natHash (c : ColumnSchema) : Nat :=
  mixHash (cond c.primary_key 1 0)
    (mixHash c.default_value.natHash
      (mixHash c.dtype.natHash
        (mixHash c.name.length (cond c.append_only 1 0))))

/-- `__hash__`: a function of `_as_tuple`, like `hash(self._as_tuple())`. -/
def schemaHash (s : Schema) : Nat :=
  mixHash (cond (_as_tuple s).1.append_only 1 0)
    (((_as_tuple s).2.map
        (fun p => mixHash p.1.length p.2.natHash)).foldl mixHash 67)

/-! ### Errors raised by the embedded code -/

/-- Exceptions raised by the schema module, one constructor per raise site,
carrying exactly the information the Python message carries. -/
inductive SchemaError where
  /-- `TypeError` in `_create_column_definitions`: the type derived from the
  annot does not match the explicit definition dtype of the named column. -/
  | typeMismatch (name : String)
  /-- `ValueError` in `_create_column_definitions`: the named field
  definitions lack type annots; all offending names are carried. -/
  | lacksAnnot (names : List String)
  /-- `ValueError` in `update_types`: an argument name is not an existing
  column name (the message names no column). -/
  | unknownColumn
  /-- `AssertionError` in `assert_equal_to`: `self` misses columns of
  `other`; the missing names are carried. -/
  | missingColumns (names : List String)
  /-- `AssertionError` in `assert_equal_to`: a shared column's typehints
  differ. -/
  | typehintMismatch (col : String)
  /-- `KeyError` from `self_dict[col]` in `assert_equal_to`. -/
  | keyErr (col : String)
  /-- `AssertionError` in `assert_equal_to`: `self` has extra columns. -/
  | extraColumns (names : List String)
  /-- `AssertionError` in `assert_equal_to`: primary keys differ. -/
  | primaryKeyMismatch
  /-- `AssertionError` from a bare `assert` in `schema_add`; it carries no
  message at all. -/
  | bareAssert
  /-- `IndexError` from `line.lstrip()[0]` in `remove_comments_from_file`. -/
  | indexErr
deriving DecidableEq, Repr

/-! ### `_create_column_definitions` and the builders -/

/-- Loop body of `_create_column_definitions`: walk the annots in order,
popping the matching field definition (or defaulting to
`column_definition(dtype=col_dtype)`), checking the dtype against the annot,
resolving the column name, and inserting the resolved `ColumnSchema` into
the result dict; afterwards any leftover field is a `ValueError` naming all
leftover fields. -/
def createColsGo (appendOnly : Bool) (annots : List (String × DType))
    (fields : List (String × ColumnDefinition))
    (acc : List (String × ColumnSchema)) :
    Except SchemaError (List (String × ColumnSchema)) :=
  match annots with
  | [] =>
    if fields = [] then .ok acc
    else .error (.lacksAnnot (fields.map Prod.fst))
  | (name, colDtype) :: rest =>
    let popped := dictPop fields name
    let column := popped.1.getD { dtype := some colDtype }
    let dtype := column.dtype.getD colDtype
    if colDtype ≠ dtype then .error (.typeMismatch name)
    else
      let rname := column.name.getD name
      let colSchema : ColumnSchema :=
        { primary_key := column.primary_key
          default_value := column.default_value
          dtype := dtype
          name := rname
          append_only := appendOnly }
      createColsGo appendOnly rest popped.2 (dictSet acc rname colSchema)

/-- `_create_column_definitions(schema)`, with the schema's resolved
`get_type_hints` result passed as `annots` (dtype values, `dt.wrap`
already applied) and `_cls_fields` passed as `fields`. -/
def _create_column_definitions (appendOnly : Bool)
    (annots : List (String × DType))
    (fields : List (String × ColumnDefinition)) :
    Except SchemaError (List (String × ColumnSchema)) :=
  createColsGo appendOnly annots fields []

/-- `schema_builder(columns, properties)`: annots are `c.dtype or Any`,
the definitions themselves become the class fields, and the metaclass runs
`_create_column_definitions`. -/
def schema_builder (columns : List (String × ColumnDefinition))
    (props : SchemaProperties) : Except SchemaError Schema :=
  let annots := columns.map (fun p => (p.1, p.2.dtype.getD .ANY))
  match _create_column_definitions props.append_only annots columns with
  | .ok cols => .ok { props := props, columns := cols }
  | .error e => .error e

/-! ### `update_types` -/

/-- Loop of `update_types`: for each keyword argument in order, fail with the
unknown-column `ValueError` when the name is not a column, otherwise replace
that definition's dtype (`dataclasses.replace`). -/
def updateTypesLoop (columns : List (String × ColumnDefinition)) :
    List (String × DType) → Except SchemaError (List (String × ColumnDefinition))
  | [] => .ok columns
  | (name, dtype) :: rest =>
    match dictGet columns name with
    | Option.none => .error .unknownColumn
    | some cd => updateTypesLoop (dictSet columns name { cd with dtype := some dtype }) rest

/-- `update_types(**kwargs)`: rebuild the definitions dict keyed by each
column's resolved name, apply the overrides, and rebuild through
`schema_builder` with the same properties. -/
def update_types (s : Schema) (kwargs : List (String × DType)) :
    Except SchemaError Schema :=
  let columns := dictOfList (s.columns.map (fun p => (p.2.name, p.2.to_definition)))
  match updateTypesLoop columns kwargs with
  | .ok cols => schema_builder cols s.props
  | .error e => .error e

/-! ### `schema_add` -/

/-- The class-level state of a schema class, as `schema_add` consumes it:
`__properties__`, the `get_type_hints` dict (class **attribute** name to
annot value, `dt.wrap` applied) and the `_cls_fields` dict (class
**attribute** name to the `ColumnDefinition` stored on the class, if any —
empty for classes built from bare annots, e.g. `schema_from_types`).
Attribute names differ from resolved column names when a column is renamed
via `column_definition(name=...)`; the class's resolved `__columns__` dict
is recomputed from these two dicts by `_create_column_definitions`. -/
structure SchemaClass where
  props : SchemaProperties
  annots : List (String × DType)
  fields : List (String × ColumnDefinition)
deriving DecidableEq, Repr

/-- `schema_add(*schemas)`: merge all `get_type_hints` dicts and all
`_cls_fields` dicts — both keyed by class attribute names — with
`dict(ChainMap(...))`, guard each merge with a bare `assert` that the
merged size equals the sum of the input sizes, then rebuild through
`_schema_builder` with default properties (`append_only=False`). -/
def schema_add (schemas : List SchemaClass) : Except SchemaError Schema :=
  let annotsList := schemas.map SchemaClass.annots
  let annots := dictOfChainMap annotsList
  if annots.length ≠ (annotsList.map List.length).sum then .error .bareAssert
  else
    let fieldsList := schemas.map SchemaClass.fields
    let fields := dictOfChainMap fieldsList
    if fields.length ≠ (fieldsList.map List.length).sum then .error .bareAssert
    else
      match _create_column_definitions false annots fields with
      | .ok cols => .ok { props := {}, columns := cols }
      | .error e => .error e

/-! ### `is_subschema` -/

/-- Equality of two dict `keys()` views, which Python compares as sets. -/
def keysEqAsSets (a b : List String) : Bool :=
  a.all (fun k => b.contains k) && b.all (fun k => a.contains k)

/-- Proper-subset test `a < b` on dict `keys()` views. -/
def keysProperSubset (a b : List String) : Bool :=
  a.all (fun k => b.contains k) && !(b.all (fun k => a.contains k))

/-- `is_subschema(left, right)`, parametric in the external
`dt.dtype_issubclass` relation: key sets must coincide, then every shared
column's left dtype must be a subtype of the right dtype. -/
def is_subschema (issub : DType → DType → Bool) (left right : Schema) : Bool :=
  if keysEqAsSets (schemaKeys left) (schemaKeys right) then
    left.columns.all (fun p =>
      match dictGet right.columns p.1 with
      | some c => issub p.2.dtype c.dtype
      | Option.none => false)
  else false

/-! ### `assert_equal_to` -/

/-- Set difference of dict key views (`other.keys() - self.keys()`). -/
def setDiff (a b : List String) : List String :=
  a.filter (fun k => !(b.contains k))

/-- The per-column loop of `assert_equal_to`: for each column of `other` (in
order), evaluate `self_dict[col]` — a `KeyError` when absent — and assert the
typehints are equal. -/
def checkTypesLoop (selfD : List (String × TypeHint)) :
    List (String × TypeHint) → Except SchemaError Unit
  | [] => .ok ()
  | (col, th) :: rest =>
    match dictGet selfD col with
    | Option.none => .error (.keyErr col)
    | some th' =>
      if th = th' then checkTypesLoop selfD rest
      else .error (.typehintMismatch col)

/-- `assert_equal_to(self, other, allow_superset, ignore_primary_keys)`:
missing-columns check via the proper-subset test `self.keys() < other.keys()`,
then the per-column typehint loop, then the extra-columns check via the
proper-superset test, then the primary-key comparison. -/
def assert_equal_to (self other : Schema)
    (allow_superset : Bool) (ignore_primary_keys : Bool) :
    Except SchemaError Unit :=
  let self_dict := typehintsOf self
  let other_dict := typehintsOf other
  let selfKeys := self_dict.map Prod.fst
  let otherKeys := other_dict.map Prod.fst
  if keysProperSubset selfKeys otherKeys then
    .error (.missingColumns (setDiff otherKeys selfKeys))
  else
    match checkTypesLoop self_dict other_dict with
    | .error e => .error e
    | .ok _ =>
      if !allow_superset && keysProperSubset otherKeys selfKeys then
        .error (.extraColumns (setDiff selfKeys otherKeys))
      else if !ignore_primary_keys
          && primary_key_columns self ≠ primary_key_columns other then
        .error .primaryKeyMismatch
      else .ok ()

/-! ### CSV inference -/

/-- Python type objects that `schema_from_csv.choose_type` can return. -/
inductive InferredType where
  | any
  | int
  | float
  | str
deriving DecidableEq, Repr

/-- `_is_parsable_to(s, parse_fun)`: the parse function succeeds (returning
a value) rather than raising `ValueError` (returning nothing). -/
def _is_parsable_to (parse_fun : String → Option α) (s : String) : Bool :=
  (parse_fun s).isSome

/-- `schema_from_csv.choose_type`, parametric in the stdlib `int` and
`float` string parsers: empty sample gives `Any`, then int, then float,
then the `str` fallback. -/
def choose_type (intFn : String → Option α) (floatFn : String → Option β)
    (entries : List String) : InferredType :=
  if entries.length = 0 then .any
  else if entries.all (_is_parsable_to intFn) then .int
  else if entries.all (_is_parsable_to floatFn) then .float
  else .str

/-- Python leading-whitespace set used by `str.lstrip()`. -/
def pyIsSpace (c : Char) : Bool :=
  c = ' ' || c = '\t' || c = '\n' || c = '\r' || c = '\x0b' || c = '\x0c'

/-- `schema_from_csv.remove_comments_from_file`, run over the consumed
lines: each line is kept when `line.lstrip()[0] != comment_char`; indexing
`[0]` on an empty stripped line raises `IndexError`. -/
def remove_comments_from_file (lines : List String)
    (comment_char : Option Char) : Except SchemaError (List String) :=
  match lines with
  | [] => .ok []
  | line :: rest =>
    match line.toList.dropWhile pyIsSpace with
    | [] => .error .indexErr
    | c :: _ =>
      let keep : Bool :=
        match comment_char with
        | Option.none => true
        | some cc => c ≠ cc
      match remove_comments_from_file rest comment_char with
      | .error e => .error e
      | .ok ls => .ok (if keep then line :: ls else ls)

/-! ### Pandas-sample inference -/

/-- Storage kind of a pandas column, as dispatched on by `_type_converter`
through the `pd.api.types.is_*_dtype` tests (one constructor per branch). -/
inductive PdKind where
  | integer
  | floating
  | boolean
  | stringKind
  | datetimeNs (hasTz : Bool)
  | timedelta
  | object
  | other
deriving DecidableEq, Repr

/-- Abstraction of a pandas `Series` restricted to the observations
`_type_converter` makes about it: the three all-quantified shape tests, the
storage kind, and whether any entry is null/missing (`isna` and `isnull`
are aliases in pandas). -/
structure PdSeries where
  allTupleOrList : Bool
  allNa : Bool
  allNdarray : Bool
  kind : PdKind
  anyNa : Bool
deriving DecidableEq, Repr

/-- The storage-kind dispatch in the `elif` chain of `_type_converter`. -/
def kindDtype : PdKind → DType
  | .integer => .INT
  | .floating => .FLOAT
  | .boolean => .BOOL
  | .stringKind => .STR
  | .datetimeNs hasTz => if hasTz then .DATE_TIME_UTC else .DATE_TIME_NAIVE
  | .timedelta => .DURATION
  | .object => .ANY
  | .other => .ANY

/-- `_type_converter(series)`: the three early returns, then the
storage-kind dispatch, then the `Optional` wrap when any value is
null/missing. -/
def _type_converter (s : PdSeries) : DType :=
  if s.allTupleOrList then .ANY_TUPLE
  else if s.allNa then .NONE
  else if s.allNdarray then .ARRAY
  else
    let ret := kindDtype s.kind
    if s.anyNa then .optional ret else ret

/-! ### Specification-side predicate for the sub-schema relation

The spec states `is_subschema(A, B)` holds iff the two schemas declare the
same set of column names and every shared name's dtype on the `A` side is a
subtype of the `B` side's dtype. -/

/-- Spec wording of the sub-schema relation, to be compared with the
embedded `is_subschema`. -/
def SubschemaSpec (issub : DType → DType → Bool) (A B : Schema) : Prop :=
  (∀ n, n ∈ schemaKeys A ↔ n ∈ schemaKeys B) ∧
  (∀ n cA cB, dictGet A.columns n = some cA → dictGet B.columns n = some cB →
    issub cA.dtype cB.dtype = true)

/-- Result of applying the `update_types` keyword overrides to one
definition entry: the dtype of an overridden column is replaced, everything
else kept. -/
def applyOverrides (kwargs : List (String × DType))
    (cd : String × ColumnDefinition) : String × ColumnDefinition :=
  match dictGet kwargs cd.1 with
  | some dtv => (cd.1, { cd.2 with dtype := some dtv })
  | Option.none => cd

/-! ### Concrete example schemas used by witnesses and counterexamples -/

/-- A plain int column named `n`. -/
def intCol (n : String) : ColumnSchema :=
  { primary_key := false, default_value := .undefinedMarker, dtype := .INT
    name := n, append_only := false }

/-- A plain str column named `n`. -/
def strCol (n : String) : ColumnSchema :=
  { primary_key := false, default_value := .undefinedMarker, dtype := .STR
    name := n, append_only := false }

/-- Example schema with a single int column `x`. -/
def schemaX : Schema := { props := {}, columns := [("x", intCol "x")] }

/-- Example schema with a single int column `y`. -/
def schemaY : Schema := { props := {}, columns := [("y", intCol "y")] }

/-- Example schema with columns `x: int` then `y: str`. -/
def schemaXY : Schema :=
  { props := {}, columns := [("x", intCol "x"), ("y", strCol "y")] }

/-- The same columns as `schemaXY` in the opposite insertion order. -/
def schemaYX : Schema :=
  { props := {}, columns := [("y", strCol "y"), ("x", intCol "x")] }

/-- An example subtype relation for witnesses: reflexivity plus covariant
injection into `optional`. -/
def issubEx (a b : DType) : Bool :=
  a = b || b = .optional a

/-- Class state of `class _(pw.Schema): x: int` — one bare annot, no stored
fields. -/
def clsX : SchemaClass :=
  { props := {}, annots := [("x", .INT)], fields := [] }

/-- Class state of `class _(pw.Schema): x: str`. -/
def clsXstr : SchemaClass :=
  { props := {}, annots := [("x", .STR)], fields := [] }

/-- Class state of `class _(pw.Schema): y: int`. -/
def clsY : SchemaClass :=
  { props := {}, annots := [("y", .INT)], fields := [] }

/-- Class state of
`class _(pw.Schema): a: int = pw.column_definition(name="x")` — attribute
`a`, resolved column name `x`. -/
def clsRenamed : SchemaClass :=
  { props := {}
    annots := [("a", .INT)]
    fields := [("a", { dtype := some .INT, name := some "x" })] }

/-- A tiny stand-in for a stdlib string parser, accepting exactly `1` and
`2`; used to instantiate the parser-parametric CSV claim. -/
def parseOneTwo (s : String) : Option Nat :=
  if s = "1" || s = "2" then some 0 else Option.none

/-- An optional-int column named `n`. -/
def optIntCol (n : String) : ColumnSchema :=
  { primary_key := false, default_value := .undefinedMarker
    dtype := .optional .INT, name := n, append_only := false }

/-- Example schema with a single optional-int column `x`. -/
def schemaXopt : Schema := { props := {}, columns := [("x", optIntCol "x")] }

/-- Union of a list of finite name sets, used to count the distinct column
names entering a disjoint union. -/
def unionAll (L : List (Finset String)) : Finset String :=
  L.foldr (fun s t => s ∪ t) ∅

/-- The finite set of column names of a dict. -/
def keyFinset {α : Type} (m : List (String × α)) : Finset String :=
  (m.map Prod.fst).toFinset

/-! ## Association-list dictionary lemmas -/

theorem dictGet_mem {α : Type} {d : List (String × α)} {k : String} {v : α}
    (h : dictGet d k = some v) : (k, v) ∈ d := by
  induction d with
  | nil => simp [dictGet] at h
  | cons p rest ih =>
    obtain ⟨k', v'⟩ := p
    by_cases hk : k' = k
    · subst hk
      simp [dictGet] at h
      simp [h]
    · simp [dictGet, hk] at h
      exact List.mem_cons_of_mem _ (ih h)

theorem dictGet_isSome_iff {α : Type} (d : List (String × α)) (k : String) :
    (dictGet d k).isSome = true ↔ k ∈ d.map Prod.fst := by
  induction d with
  | nil => simp [dictGet]
  | cons p rest ih =>
    obtain ⟨k', v'⟩ := p
    by_cases hk : k' = k
    · subst hk; simp [dictGet]
    · simp [dictGet, hk, ih, Ne.symm hk]

theorem dictGet_of_mem_nodup {α : Type} {d : List (String × α)}
    {k : String} {v : α}
    (hnd : (d.map Prod.fst).Nodup) (h : (k, v) ∈ d) :
    dictGet d k = some v := by
  induction d with
  | nil => simp at h
  | cons p rest ih =>
    obtain ⟨k', v'⟩ := p
    simp only [List.map_cons, List.nodup_cons] at hnd
    rcases List.mem_cons.mp h with heq | hmem
    · obtain ⟨h1, h2⟩ := Prod.mk.injEq .. ▸ heq
      injection heq with e1 e2
      subst e1; subst e2
      simp [dictGet]
    · have hne : k' ≠ k := by
        intro hc
        subst hc
        exact hnd.1 (List.mem_map_of_mem Prod.fst hmem)
      simp [dictGet, hne, ih hnd.2 hmem]

theorem dictSet_of_not_mem {α : Type} {d : List (String × α)} {k : String}
    (v : α) (h : k ∉ d.map Prod.fst) :
    dictSet d k v = d ++ [(k, v)] := by
  induction d with
  | nil => simp [dictSet]
  | cons p rest ih =>
    obtain ⟨k', v'⟩ := p
    simp only [List.map_cons, List.mem_cons] at h
    push_neg at h
    have hne : k' ≠ k := Ne.symm h.1
    simp [dictSet, hne, ih h.2]

theorem dictSet_map_fst_of_mem {α : Type} {d : List (String × α)}
    {k : String} (v : α) (h : k ∈ d.map Prod.fst) :
    (dictSet d k v).map Prod.fst = d.map Prod.fst := by
  induction d with
  | nil => simp at h
  | cons p rest ih =>
    obtain ⟨k', v'⟩ := p
    by_cases hk : k' = k
    · subst hk; simp [dictSet]
    · simp only [List.map_cons, List.mem_cons] at h
      rcases h with h | h

      · exact absurd h.symm hk
      · simp [dictSet, hk, ih h]

/-! ## Claim C4 -/

/-- C4: schema equality holds iff the properties and the ordered
`(name, ColumnSchema)` sequences agree, and the hash — a function of
`_as_tuple` just as `__hash__` is — is consistent with that equality. -/
theorem schema_eq_iff_and_hash_consistent (a b : Schema) :
    (schemaEq a b = true ↔ a.props = b.props ∧ a.columns = b.columns) ∧
    (schemaEq a b = true → schemaHash a = schemaHash b) := by
  constructor
  · simp [schemaEq, _as_tuple, Prod.ext_iff]
  · intro h
    have ht : _as_tuple a = _as_tuple b := by
      simpa [schemaEq] using h
    unfold schemaHash
    rw [ht]

/-- Witness for C4 at two structurally equal schema values. -/
theorem schema_eq_iff_and_hash_consistent_witness :
    (schemaEq schemaXY schemaXY = true ↔
      schemaXY.props = schemaXY.props ∧ schemaXY.columns = schemaXY.columns) ∧
    (schemaEq schemaXY schemaXY = true →
      schemaHash schemaXY = schemaHash schemaXY) :=
  schema_eq_iff_and_hash_consistent schemaXY schemaXY

/-! ## Claim C9 -/

/-- C9: schema equality is order-sensitive — equal properties and
permuted-but-differently-ordered column sequences compare unequal, because
`_as_tuple` compares the ordered sequences. -/
theorem schema_eq_order_sensitive (a b : Schema)
    (hprops : a.props = b.props)
    (hperm : a.columns.Perm b.columns)
    (hne : a.columns ≠ b.columns) :
    schemaEq a b = false := by
  have hna : _as_tuple a ≠ _as_tuple b := by
    intro h
    exact hne (congrArg Prod.snd h)
  unfold schemaEq
  exact decide_eq_false hna

/-- Witness for C9: the two orderings of the `x`/`y` columns. -/
theorem schema_eq_order_sensitive_witness :
    schemaEq schemaXY schemaYX = false :=
  schema_eq_order_sensitive schemaXY schemaYX rfl (by decide) (by decide)

/-! ## Claim C8 -/

/-- C8: when some value of a pandas sample column is null/missing and none
of the three early all-quantified returns fired, `_type_converter` yields
the `Optional` wrapper around the storage-kind dispatch result. -/
theorem type_converter_optional_wrap (s : PdSeries)
    (h1 : s.anyNa = true)
    (h2 : s.allTupleOrList = false)
    (h3 : s.allNa = false)
    (h4 : s.allNdarray = false) :
    _type_converter s = .optional (kindDtype s.kind) := by
  simp [_type_converter, h1, h2, h3, h4]

/-- Witness for C8 at an integer column with a missing value. -/
theorem type_converter_optional_wrap_witness :
    _type_converter
      { allTupleOrList := false, allNa := false, allNdarray := false
        kind := .integer, anyNa := true } =
      .optional (kindDtype .integer) :=
  type_converter_optional_wrap _ rfl rfl rfl rfl

/-! ## Claim C10 -/

/-- C10: `remove_comments_from_file` is not total — any consumed line that
strips to the empty string makes the `[0]` index raise `IndexError`, for
every choice of comment character including none at all. -/
theorem remove_comments_total_failure (lines : List String)
    (comment_char : Option Char)
    (h : ∃ l ∈ lines, l.toList.dropWhile pyIsSpace = []) :
    remove_comments_from_file lines comment_char = .error .indexErr := by
  induction lines with
  | nil => simp at h
  | cons line rest ih =>
    obtain ⟨l, hl, hempty⟩ := h
    rcases List.mem_cons.mp hl with rfl | hmem
    · unfold remove_comments_from_file
      rw [hempty]
    · unfold remove_comments_from_file
      cases hcase : line.toList.dropWhile pyIsSpace with
      | nil => rfl
      | cons c cs =>
        rw [ih ⟨l, hmem, hempty⟩]

/-- Witness for C10: a whitespace-only second line, no comment character. -/
theorem remove_comments_total_failure_witness :
    remove_comments_from_file ["a,b", "  ", "1,2"] Option.none =
      .error .indexErr :=
  remove_comments_total_failure ["a,b", "  ", "1,2"] Option.none (by decide)

/-! ## Claim C7 -/

/-- C7: `choose_type` scans the fixed precedence int, float, str over a
non-empty sample — the inferred type is int when every entry parses as an
integer, else float when every entry parses as a float, else str — and an
empty sample falls back to `Any`. Stated parametrically in the stdlib
`int`/`float` string parsers. -/
theorem choose_type_precedence {α β : Type}
    (intFn : String → Option α) (floatFn : String → Option β)
    (entries : List String) :
    (entries = [] → choose_type intFn floatFn entries = .any) ∧
    (entries ≠ [] → entries.all (_is_parsable_to intFn) = true →
      choose_type intFn floatFn entries = .int) ∧
    (entries ≠ [] → entries.all (_is_parsable_to intFn) = false →
      entries.all (_is_parsable_to floatFn) = true →
      choose_type intFn floatFn entries = .float) ∧
    (entries ≠ [] → entries.all (_is_parsable_to intFn) = false →
      entries.all (_is_parsable_to floatFn) = false →
      choose_type intFn floatFn entries = .str) := by
  refine ⟨?_, ?_, ?_, ?_⟩
  · intro h
    subst h
    simp [choose_type]
  · intro h ha
    simp [choose_type, List.length_eq_zero, h, ha]
  · intro h ha hf
    simp [choose_type, List.length_eq_zero, h, ha, hf]
  · intro h ha hf
    simp [choose_type, List.length_eq_zero, h, ha, hf]

/-- Witness for C7: all-int sample gives int, empty sample gives any, an
unparsable sample gives str. -/
theorem choose_type_precedence_witness :
    choose_type parseOneTwo parseOneTwo ["1", "2"] = .int ∧
    choose_type parseOneTwo parseOneTwo [] = .any ∧
    choose_type (fun _ => (Option.none : Option Int))
      (fun _ => (Option.none : Option Int)) ["foo"] = .str :=
  ⟨(choose_type_precedence parseOneTwo parseOneTwo ["1", "2"]).2.1
      (by decide) (by decide),
   (choose_type_precedence parseOneTwo parseOneTwo []).1 rfl,
   (choose_type_precedence (fun _ => (Option.none : Option Int))
      (fun _ => (Option.none : Option Int)) ["foo"]).2.2.2
      (by decide) (by decide) (by decide)⟩

/-! ## Claim C1 -/

/-- C1: the missing-columns branch of `assert_equal_to` only fires when
`self`'s key view is a proper subset of `other`'s. With incomparable key
sets — here `self = {x}` and `other = {y}`, so `other` has a column absent
from `self` while `self` also has one absent from `other` — the branch is
skipped and the per-column loop raises a bare `KeyError` on `y` instead of
the missing-columns `AssertionError`; the proper-subset case (second
conjunct) does produce the missing-columns error. -/
theorem assert_equal_to_incomparable_keyerror :
    assert_equal_to schemaX schemaY false true = .error (.keyErr "y") ∧
    assert_equal_to schemaX schemaXY false true =
      .error (.missingColumns ["y"]) := by
  constructor
  · rfl
  · rfl

/-! ## Claim C3 -/

theorem keysEqAsSets_iff (a b : List String) :
    keysEqAsSets a b = true ↔ (∀ n, n ∈ a ↔ n ∈ b) := by
  simp only [keysEqAsSets, Bool.and_eq_true, List.all_eq_true]
  constructor
  · rintro ⟨h1, h2⟩ n
    constructor
    · intro hn
      simpa using h1 n hn
    · intro hn
      simpa using h2 n hn
  · intro h
    constructor
    · intro n hn
      simpa using (h n).mp hn
    · intro n hn
      simpa using (h n).mpr hn

/-- C3: `is_subschema` returns true exactly when the key sets coincide and
every shared column's left dtype is a subtype of the right dtype under the
(abstract) covariance relation; in particular any key-set mismatch gives
false. -/
theorem is_subschema_characterization (issub : DType → DType → Bool)
    (A B : Schema)
    (hA : (schemaKeys A).Nodup) (hB : (schemaKeys B).Nodup) :
    (is_subschema issub A B = true ↔ SubschemaSpec issub A B) ∧
    (¬ (∀ n, n ∈ schemaKeys A ↔ n ∈ schemaKeys B) →
      is_subschema issub A B = false) := by
  have hkeys : ∀ (s : Schema), schemaKeys s = s.columns.map Prod.fst := by
    intro s
    rfl
  constructor
  · constructor
    · intro h
      by_cases hk : keysEqAsSets (schemaKeys A) (schemaKeys B) = true
      · have hall : A.columns.all (fun p =>
            match dictGet B.columns p.1 with
            | some c => issub p.2.dtype c.dtype
            | Option.none => false) = true := by
          simpa [is_subschema, hk] using h
        refine ⟨(keysEqAsSets_iff _ _).mp hk, ?_⟩
        intro n cA cB hgA hgB
        have hmem : (n, cA) ∈ A.columns := dictGet_mem hgA
        have := List.all_eq_true.mp hall _ hmem
        simpa [hgB] using this
      · have hk' : keysEqAsSets (schemaKeys A) (schemaKeys B) = false := by
          simpa using hk
        simp [is_subschema, hk'] at h
    · rintro ⟨hiff, hsub⟩
      have hk : keysEqAsSets (schemaKeys A) (schemaKeys B) = true :=
        (keysEqAsSets_iff _ _).mpr hiff
      simp only [is_subschema, hk, if_true]
      rw [List.all_eq_true]
      intro p hp
      have hgA : dictGet A.columns p.1 = some p.2 :=
        dictGet_of_mem_nodup (by rw [← hkeys]; exact hA) hp
      have hmemA : p.1 ∈ schemaKeys A := by
        rw [hkeys]
        exact List.mem_map_of_mem Prod.fst hp
      have hmemB : p.1 ∈ B.columns.map Prod.fst := by
        rw [← hkeys]
        exact (hiff p.1).mp hmemA
      have hsomeB := (dictGet_isSome_iff B.columns p.1).mpr hmemB
      obtain ⟨cB, hgB⟩ := Option.isSome_iff_exists.mp hsomeB
      have := hsub p.1 p.2 cB hgA hgB
      simp [hgB, this]
  · intro hne
    have hk : keysEqAsSets (schemaKeys A) (schemaKeys B) = false := by
      rcases hb : keysEqAsSets (schemaKeys A) (schemaKeys B) with _ | _
      · rfl
      · exact absurd ((keysEqAsSets_iff _ _).mp hb) hne
    simp [is_subschema, hk]

/-- Witness for C3 at `{x: int}` against `{x: optional int}` under the
example covariance relation. -/
theorem is_subschema_characterization_witness :
    (is_subschema issubEx schemaX schemaXopt = true ↔
      SubschemaSpec issubEx schemaX schemaXopt) ∧
    (¬ (∀ n, n ∈ schemaKeys schemaX ↔ n ∈ schemaKeys schemaXopt) →
      is_subschema issubEx schemaX schemaXopt = false) :=
  is_subschema_characterization issubEx schemaX schemaXopt
    (by decide) (by decide)

/-! ## Claim C6 -/

theorem dictPop_fst {α : Type} (d : List (String × α)) (k : String) :
    (dictPop d k).1 = dictGet d k := by
  induction d with
  | nil => simp [dictPop, dictGet]
  | cons p rest ih =>
    obtain ⟨k', v'⟩ := p
    by_cases hk : k' = k
    · simp [dictPop, dictGet, hk]
    · simp [dictPop, dictGet, hk, ih]

theorem dictPop_snd_sublist {α : Type} (d : List (String × α)) (k : String) :
    List.Sublist (dictPop d k).2 d := by
  induction d with
  | nil => simp [dictPop]
  | cons p rest ih =>
    obtain ⟨k', v'⟩ := p
    by_cases hk : k' = k
    · simpa [dictPop, hk] using List.sublist_cons_self (k, v') rest
    · simpa [dictPop, hk] using List.Sublist.cons₂ (k', v') ih

theorem dictPop_filter_key {α : Type} (p q : String → Bool) (k : String)
    (hq : q k = false) (hagree : ∀ x, x ≠ k → q x = p x) :
    ∀ (d : List (String × α)), (d.map Prod.fst).Nodup →
      (dictPop d k).2.filter (fun e => p e.1) = d.filter (fun e => q e.1) := by
  intro d
  induction d with
  | nil => simp [dictPop]
  | cons e rest ih =>
    intro hnd
    obtain ⟨k', v'⟩ := e
    simp only [List.map_cons, List.nodup_cons] at hnd
    by_cases hk : k' = k
    · subst hk
      simp only [dictPop, if_pos rfl, List.filter_cons, hq]
      simp only [Bool.false_eq_true, if_false]
      apply List.filter_congr
      intro e he
      have hek : e.1 ≠ k' := by
        intro hc
        exact hnd.1 (hc ▸ List.mem_map_of_mem Prod.fst he)
      exact (hagree e.1 hek).symm
    · simp only [dictPop, if_neg hk, List.filter_cons]
      rw [hagree k' hk, ih hnd.2]

theorem createColsGo_lacks (ao : Bool) :
    ∀ (annots : List (String × DType))
      (fields : List (String × ColumnDefinition))
      (acc : List (String × ColumnSchema)),
      (fields.map Prod.fst).Nodup →
      (∀ nd ∈ annots, ∀ fd ∈ fields, fd.1 = nd.1 →
        fd.2.dtype = Option.none ∨ fd.2.dtype = some nd.2) →
      fields.filter (fun p => !((annots.map Prod.fst).contains p.1)) ≠ [] →
      createColsGo ao annots fields acc =
        .error (.lacksAnnot ((fields.filter
          (fun p => !((annots.map Prod.fst).contains p.1))).map Prod.fst)) := by
  intro annots
  induction annots with
  | nil =>
    intro fields acc hnd hok hleft
    have hfilter :
        fields.filter
          (fun p => !((([] : List (String × DType)).map Prod.fst).contains p.1)) =
        fields := by
      simp
    rw [hfilter] at hleft ⊢
    simp only [createColsGo, if_neg hleft]
  | cons nd rest ih =>
    intro fields acc hnd hok hleft
    obtain ⟨n, d⟩ := nd
    have hfilt := dictPop_filter_key
      (fun x => !((rest.map Prod.fst).contains x))
      (fun x => !((((n, d) :: rest).map Prod.fst).contains x)) n
      (by simp) (by intro x hx; simp [hx]) fields hnd
    have hsub := dictPop_snd_sublist fields n
    have hnd' : ((dictPop fields n).2.map Prod.fst).Nodup :=
      hnd.sublist (hsub.map Prod.fst)
    have hok' : ∀ ndp ∈ rest, ∀ fd ∈ (dictPop fields n).2, fd.1 = ndp.1 →
        fd.2.dtype = Option.none ∨ fd.2.dtype = some ndp.2 := by
      intro ndp hndp fd hfd he
      exact hok ndp (List.mem_cons_of_mem _ hndp) fd (hsub.mem hfd) he
    have hleft' : (dictPop fields n).2.filter
        (fun p => !((rest.map Prod.fst).contains p.1)) ≠ [] := by
      rw [hfilt]
      exact hleft
    have hdt : (((dictPop fields n).1.getD
        { dtype := some d } : ColumnDefinition).dtype).getD d = d := by
      cases hcd : (dictPop fields n).1 with
      | none => simp
      | some cd =>
        rw [dictPop_fst] at hcd
        have hmem : (n, cd) ∈ fields := dictGet_mem hcd
        rcases hok (n, d) (List.mem_cons_self _ _) (n, cd) hmem rfl with h | h
        · have h' : cd.dtype = Option.none := h
          simp [h']
        · have h' : cd.dtype = some d := h
          simp [h']
    simp only [createColsGo]
    rw [hdt]
    rw [if_neg (by simp)]
    have hstep := ih (dictPop fields n).2
      (dictSet acc
        ((((dictPop fields n).1.getD { dtype := some d }).name).getD n)
        { primary_key := ((dictPop fields n).1.getD { dtype := some d }).primary_key
          default_value := ((dictPop fields n).1.getD { dtype := some d }).default_value
          dtype := d
          name := (((dictPop fields n).1.getD { dtype := some d }).name).getD n
          append_only := ao })
      hnd' hok' hleft'
    rw [hfilt] at hstep
    exact hstep

/-- C6 counterexample: the input declares field `b` without an annot, yet
construction fails with the type-mismatch `TypeError` on the annotated
column `a` (whose explicit dtype `str` contradicts its `int` annot), not
with the missing-annot `ValueError`. -/
theorem create_column_defs_missing_cex :
    _create_column_definitions false [("a", .INT)]
      [("a", { dtype := some .STR }), ("b", {})] =
      .error (.typeMismatch "a") := by
  rfl

/-- C6 (amended): whenever one or more declared fields lack a type annot,
and no annotated column triggers its per-column type-mismatch error first,
construction fails with a missing-annot error reporting all unannotated
field names together. -/
theorem create_column_defs_missing_reported (ao : Bool)
    (annots : List (String × DType))
    (fields : List (String × ColumnDefinition))
    (hnd : (fields.map Prod.fst).Nodup)
    (hok : ∀ nd ∈ annots, ∀ fd ∈ fields, fd.1 = nd.1 →
      fd.2.dtype = Option.none ∨ fd.2.dtype = some nd.2)
    (hleft : fields.filter
      (fun p => !((annots.map Prod.fst).contains p.1)) ≠ []) :
    _create_column_definitions ao annots fields =
      .error (.lacksAnnot ((fields.filter
        (fun p => !((annots.map Prod.fst).contains p.1))).map Prod.fst)) :=
  createColsGo_lacks ao annots fields [] hnd hok hleft

/-- Witness for the amended C6: fields `b` and `c` lack annots and are both
reported. -/
theorem create_column_defs_missing_reported_witness :
    _create_column_definitions false [("a", .INT)]
      [("a", { dtype := some .INT }), ("b", {}), ("c", {})] =
      .error (.lacksAnnot ["b", "c"]) :=
  create_column_defs_missing_reported false [("a", .INT)]
    [("a", { dtype := some .INT }), ("b", {}), ("c", {})]
    (by decide) (by decide) (by decide)

/-! ## Shared rebuild lemmas for `schema_builder` consumers -/

theorem dictGet_eq_none {α : Type} {d : List (String × α)} {k : String}
    (h : k ∉ d.map Prod.fst) : dictGet d k = Option.none := by
  cases hc : dictGet d k with
  | none => rfl
  | some v =>
    exact absurd ((dictGet_isSome_iff d k).mp (by simp [hc])) h

theorem dictUpdate_disjoint {α : Type} :
    ∀ (m d : List (String × α)), (m.map Prod.fst).Nodup →
      (∀ k ∈ m.map Prod.fst, k ∉ d.map Prod.fst) →
      dictUpdate d m = d ++ m := by
  intro m
  induction m with
  | nil =>
    intro d _ _
    simp [dictUpdate]
  | cons p rest ih =>
    intro d hnd hdisj
    obtain ⟨k, v⟩ := p
    simp only [List.map_cons, List.nodup_cons] at hnd
    have hk : k ∉ d.map Prod.fst := hdisj k (by simp)
    have h1 : dictUpdate d ((k, v) :: rest) =
        dictUpdate (dictSet d k v) rest := rfl
    rw [h1, dictSet_of_not_mem v hk]
    rw [ih (d ++ [(k, v)]) hnd.2 ?_]
    · simp
    · intro x hx
      simp only [List.map_append, List.mem_append]
      push_neg
      refine ⟨hdisj x (List.mem_cons_of_mem _ hx), ?_⟩
      simp only [List.map_cons, List.map_nil, List.mem_singleton]
      intro hc
      exact hnd.1 (hc ▸ hx)

theorem dictOfList_nodup {α : Type} (l : List (String × α))
    (h : (l.map Prod.fst).Nodup) : dictOfList l = l := by
  have := dictUpdate_disjoint l [] h (by simp)
  simpa [dictOfList] using this

theorem dictSet_map_of_get {α : Type} :
    ∀ {d : List (String × α)} {n : String} {cd : α} (v : α),
      (d.map Prod.fst).Nodup → dictGet d n = some cd →
      dictSet d n v = d.map (fun p => if p.1 = n then (n, v) else p) := by
  intro d
  induction d with
  | nil =>
    intro n cd v _ hget
    simp [dictGet] at hget
  | cons p rest ih =>
    intro n cd v hnd hget
    obtain ⟨k', v'⟩ := p
    simp only [List.map_cons, List.nodup_cons] at hnd
    by_cases hk : k' = n
    · subst hk
      simp only [dictGet, if_pos rfl] at hget
      have hrest : rest.map (fun p => if p.1 = k' then (k', v) else p) = rest := by
        apply List.map_congr_left ?_ |>.trans (List.map_id rest)
        intro p hp
        have : p.1 ≠ k' := by
          intro hc
          exact hnd.1 (hc ▸ List.mem_map_of_mem Prod.fst hp)
        simp [this]
      simp [dictSet, hrest]
    · simp only [dictGet, if_neg hk] at hget
      simp [dictSet, hk, ih v hnd.2 hget]

theorem createColsGo_aligned (ao : Bool) :
    ∀ (cols : List (String × ColumnSchema)) (acc : List (String × ColumnSchema)),
      (cols.map Prod.fst).Nodup →
      (∀ p ∈ cols, p.2.name = p.1) →
      (∀ n ∈ cols.map Prod.fst, n ∉ acc.map Prod.fst) →
      createColsGo ao (cols.map (fun p => (p.1, p.2.dtype)))
        (cols.map (fun p => (p.1, p.2.to_definition))) acc =
        .ok (acc ++ cols.map (fun p => (p.1,
          { p.2 with append_only := ao }))) := by
  intro cols
  induction cols with
  | nil =>
    intro acc _ _ _
    simp [createColsGo]
  | cons hd rest ih =>
    intro acc hnd hwf hacc
    obtain ⟨n, c⟩ := hd
    simp only [List.map_cons, List.nodup_cons] at hnd
    have hcn : c.name = n := hwf (n, c) (List.mem_cons_self _ _)
    have hpop : dictPop ((n, c.to_definition) ::
        rest.map (fun p => (p.1, p.2.to_definition))) n =
        (some c.to_definition, rest.map (fun p => (p.1, p.2.to_definition))) := by
      simp [dictPop]
    have hdt : c.to_definition.dtype = some c.dtype := rfl
    have hnm : c.to_definition.name = some c.name := rfl
    have hpk : c.to_definition.primary_key = c.primary_key := rfl
    have hdv : c.to_definition.default_value = c.default_value := rfl
    simp only [List.map_cons, createColsGo, hpop, Option.getD_some,
      hdt, hnm, hpk, hdv]
    rw [if_neg (by simp)]
    have hset : dictSet acc c.name
        { primary_key := c.primary_key
          default_value := c.default_value
          dtype := c.dtype
          name := c.name
          append_only := ao } =
        acc ++ [(n, { c with append_only := ao })] := by
      rw [hcn]
      rw [dictSet_of_not_mem _ (hacc n (List.mem_cons_self _ _))]
    rw [hset]
    have hacc' : ∀ (z : ColumnSchema) (m : String), m ∈ rest.map Prod.fst →
        m ∉ (acc ++ [(n, z)]).map Prod.fst := by
      intro z m hm
      simp only [List.map_append, List.mem_append]
      push_neg
      refine ⟨hacc m (List.mem_cons_of_mem _ hm), ?_⟩
      simp only [List.map_cons, List.map_nil, List.mem_singleton]
      intro hc
      exact hnd.1 (hc ▸ hm)
    refine Eq.trans (ih _ hnd.2
      (fun p hp => hwf p (List.mem_cons_of_mem _ hp)) (hacc' _)) ?_
    simp

/-- Rebuilding a schema through `schema_builder` from the `to_definition`
forms of already-resolved columns reproduces those columns, with
`append_only` refreshed from the supplied properties. -/
theorem schema_builder_from_cols (cols : List (String × ColumnSchema))
    (props : SchemaProperties)
    (hnd : (cols.map Prod.fst).Nodup)
    (hwf : ∀ p ∈ cols, p.2.name = p.1) :
    schema_builder (cols.map (fun p => (p.1, p.2.to_definition))) props =
      .ok { props := props
            columns := cols.map (fun p => (p.1,
              { p.2 with append_only := props.append_only })) } := by
  have hannots : (cols.map (fun p => (p.1, p.2.to_definition))).map
      (fun p => (p.1, p.2.dtype.getD .ANY)) =
      cols.map (fun p => (p.1, p.2.dtype)) := by
    rw [List.map_map]
    apply List.map_congr_left
    intro p _
    simp [ColumnSchema.to_definition]
  simp only [schema_builder, _create_column_definitions, hannots]
  rw [createColsGo_aligned props.append_only cols [] hnd hwf (by simp)]
  simp

/-! ## Claim C5 -/

theorem updateTypesLoop_ok :
    ∀ (kwargs : List (String × DType)) (d : List (String × ColumnDefinition)),
      (d.map Prod.fst).Nodup →
      (∀ q ∈ kwargs, q.1 ∈ d.map Prod.fst) →
      (kwargs.map Prod.fst).Nodup →
      updateTypesLoop d kwargs = .ok (d.map (applyOverrides kwargs)) := by
  intro kwargs
  induction kwargs with
  | nil =>
    intro d _ _ _
    have : d.map (applyOverrides []) = d := by
      apply List.map_congr_left ?_ |>.trans (List.map_id d)
      intro p _
      simp [applyOverrides, dictGet]
    rw [this]
    rfl
  | cons q rest ih =>
    intro d hnd hmem hknd
    obtain ⟨n, dtv⟩ := q
    simp only [List.map_cons, List.nodup_cons] at hknd
    obtain ⟨cdv, hget⟩ : ∃ cd, dictGet d n = some cd :=
      Option.isSome_iff_exists.mp
        ((dictGet_isSome_iff d n).mpr (hmem (n, dtv) (List.mem_cons_self _ _)))
    simp only [updateTypesLoop, hget]
    have hset := dictSet_map_of_get { cdv with dtype := some dtv } hnd hget
    have hkeys' : (dictSet d n { cdv with dtype := some dtv }).map Prod.fst =
        d.map Prod.fst := by
      rw [hset, List.map_map]
      apply List.map_congr_left
      intro p _
      by_cases h : p.1 = n
      · simp [Function.comp, h]
      · simp [Function.comp, h]
    have hrec := ih (dictSet d n { cdv with dtype := some dtv })
      (by rw [hkeys']; exact hnd)
      (by
        intro q hq
        rw [hkeys']
        exact hmem q (List.mem_cons_of_mem _ hq))
      hknd.2
    rw [hrec]
    congr 1
    rw [hset, List.map_map]
    apply List.map_congr_left
    intro p hp
    by_cases h : p.1 = n
    · have hp2 : p.2 = cdv := by
        have h1 := dictGet_of_mem_nodup hnd hp
        rw [h, hget] at h1
        exact (Option.some_inj.mp h1).symm
      have hrest : dictGet rest n = Option.none := dictGet_eq_none hknd.1
      simp [Function.comp, applyOverrides, h, hp2, dictGet, hrest]
    · have hne : ¬(n = p.1) := fun hc => h hc.symm
      have hcons : dictGet ((n, dtv) :: rest) p.1 = dictGet rest p.1 := by
        simp [dictGet, hne]
      simp [Function.comp, applyOverrides, h, hcons]

/-- C5: `update_types` replaces exactly the overridden columns' dtypes,
preserving every column's primary-key flag, default value and name (and the
column order), and fails with the unknown-column error as soon as any
override key is not an existing column. -/
theorem update_types_characterization (s : Schema)
    (kwargs : List (String × DType))
    (hwf : ∀ p ∈ s.columns, p.2.name = p.1)
    (hnd : (schemaKeys s).Nodup)
    (hknd : (kwargs.map Prod.fst).Nodup) :
    ((∀ q ∈ kwargs, q.1 ∈ schemaKeys s) →
      update_types s kwargs = .ok
        { props := s.props
          columns := s.columns.map (fun p => (p.1,
            { primary_key := p.2.primary_key
              default_value := p.2.default_value
              dtype := (dictGet kwargs p.1).getD p.2.dtype
              name := p.2.name
              append_only := s.props.append_only })) }) ∧
    ((∃ q ∈ kwargs, q.1 ∉ schemaKeys s) →
      update_types s kwargs = .error .unknownColumn) := by
  have hlist : s.columns.map (fun p => (p.2.name, p.2.to_definition)) =
      s.columns.map (fun p => (p.1, p.2.to_definition)) := by
    apply List.map_congr_left
    intro p hp
    rw [hwf p hp]
  have hkeysD : (s.columns.map (fun p => (p.1, p.2.to_definition))).map
      Prod.fst = schemaKeys s := by
    rw [List.map_map]
    rfl
  have hD : dictOfList (s.columns.map (fun p => (p.2.name, p.2.to_definition))) =
      s.columns.map (fun p => (p.1, p.2.to_definition)) := by
    rw [hlist]
    exact dictOfList_nodup _ (by rw [hkeysD]; exact hnd)
  constructor
  · intro hmem
    have hloop := updateTypesLoop_ok kwargs
      (s.columns.map (fun p => (p.1, p.2.to_definition)))
      (by rw [hkeysD]; exact hnd)
      (by
        intro q hq
        rw [hkeysD]
        exact hmem q hq)
      hknd
    have hmap : (s.columns.map (fun p => (p.1, p.2.to_definition))).map
        (applyOverrides kwargs) =
        (s.columns.map (fun p => (p.1,
          ({ primary_key := p.2.primary_key
             default_value := p.2.default_value
             dtype := (dictGet kwargs p.1).getD p.2.dtype
             name := p.2.name
             append_only := p.2.append_only } : ColumnSchema)))).map
          (fun p => (p.1, p.2.to_definition)) := by
      rw [List.map_map, List.map_map]
      apply List.map_congr_left
      intro p _
      cases hov : dictGet kwargs p.1 with
      | none =>
        simp [Function.comp, applyOverrides, hov, ColumnSchema.to_definition]
      | some dtv =>
        simp [Function.comp, applyOverrides, hov, ColumnSchema.to_definition]
    have hbuild := schema_builder_from_cols
      (s.columns.map (fun p => (p.1,
        { primary_key := p.2.primary_key
          default_value := p.2.default_value
          dtype := (dictGet kwargs p.1).getD p.2.dtype
          name := p.2.name
          append_only := p.2.append_only })))
      s.props
      (by
        rw [List.map_map]
        exact hnd)
      (by
        intro p hp
        obtain ⟨q, hq, hqe⟩ := List.mem_map.mp hp
        rw [← hqe]
        exact hwf q hq)
    have hcollapse : (s.columns.map (fun p => (p.1,
        ({ primary_key := p.2.primary_key
           default_value := p.2.default_value
           dtype := (dictGet kwargs p.1).getD p.2.dtype
           name := p.2.name
           append_only := p.2.append_only } : ColumnSchema)))).map
        (fun p => (p.1, { p.2 with append_only := s.props.append_only })) =
        s.columns.map (fun p => (p.1,
          ({ primary_key := p.2.primary_key
             default_value := p.2.default_value
             dtype := (dictGet kwargs p.1).getD p.2.dtype
             name := p.2.name
             append_only := s.props.append_only } : ColumnSchema))) := by
      rw [List.map_map]
      apply List.map_congr_left
      intro p _
      rfl
    simp only [update_types, hD, hloop, hmap]
    rw [hbuild, hcollapse]
  · intro hbad
    simp only [update_types, hD]
    obtain ⟨q, hq, hqn⟩ := hbad
    have hloopbad : ∀ (rest : List (String × DType))
        (d : List (String × ColumnDefinition)),
        (∃ r ∈ rest, r.1 ∉ d.map Prod.fst) →
        updateTypesLoop d rest = .error .unknownColumn := by
      intro rest
      induction rest with
      | nil =>
        intro d hbad'
        simp at hbad'
      | cons r tail ihr =>
        intro d hbad'
        obtain ⟨n, dtv⟩ := r
        cases hget : dictGet d n with
        | none =>
          simp [updateTypesLoop, hget]
        | some cd =>
          simp only [updateTypesLoop, hget]
          apply ihr
          obtain ⟨r', hr', hrn⟩ := hbad'
          rcases List.mem_cons.mp hr' with rfl | htail
          · exact absurd ((dictGet_isSome_iff d n).mp (by simp [hget])) hrn
          · refine ⟨r', htail, ?_⟩
            intro hc
            apply hrn
            have hkeq : (dictSet d n { cd with dtype := some dtv }).map Prod.fst =
                d.map Prod.fst :=
              dictSet_map_fst_of_mem _ ((dictGet_isSome_iff d n).mp (by simp [hget]))
            rw [← hkeq]
            exact hc
    rw [hloopbad kwargs _ ⟨q, hq, by rw [hkeysD]; exact hqn⟩]

/-- Witness for C5: overriding `x` to float on `{x: int, y: str}` replaces
only `x`; overriding the absent `z` fails with the unknown-column error. -/
theorem update_types_characterization_witness :
    update_types schemaXY [("x", .FLOAT)] = .ok
      { props := schemaXY.props
        columns := schemaXY.columns.map (fun p => (p.1,
          { primary_key := p.2.primary_key
            default_value := p.2.default_value
            dtype := (dictGet [("x", DType.FLOAT)] p.1).getD p.2.dtype
            name := p.2.name
            append_only := schemaXY.props.append_only })) } ∧
    update_types schemaXY [("z", .FLOAT)] = .error .unknownColumn :=
  ⟨(update_types_characterization schemaXY [("x", .FLOAT)]
      (by decide) (by decide) (by decide)).1 (by decide),
   (update_types_characterization schemaXY [("z", .FLOAT)]
      (by decide) (by decide) (by decide)).2 ⟨("z", .FLOAT), by decide, by decide⟩⟩

/-! ## Claim C2: dictionary-merge lemmas -/

theorem mem_dictSet_keys {α : Type} :
    ∀ (d : List (String × α)) (k a : String) (v : α),
      a ∈ (dictSet d k v).map Prod.fst ↔ a ∈ d.map Prod.fst ∨ a = k := by
  intro d
  induction d with
  | nil =>
    intro k a v
    simp [dictSet]
  | cons p rest ih =>
    intro k a v
    obtain ⟨k', v'⟩ := p
    by_cases hk : k' = k
    · subst hk
      have h : dictSet ((k', v') :: rest) k' v = (k', v) :: rest := by
        simp [dictSet]
      rw [h]
      simp only [List.map_cons, List.mem_cons]
      tauto
    · have h : dictSet ((k', v') :: rest) k v = (k', v') :: dictSet rest k v := by
        simp [dictSet, hk]
      rw [h]
      simp only [List.map_cons, List.mem_cons, ih]
      tauto

theorem dictSet_keys_nodup {α : Type} (d : List (String × α)) (k : String)
    (v : α) (h : (d.map Prod.fst).Nodup) :
    ((dictSet d k v).map Prod.fst).Nodup := by
  by_cases hm : k ∈ d.map Prod.fst
  · rw [dictSet_map_fst_of_mem v hm]
    exact h
  · rw [dictSet_of_not_mem v hm]
    simp [List.nodup_append, h, hm]

theorem mem_dictUpdate_keys {α : Type} :
    ∀ (m d : List (String × α)) (a : String),
      a ∈ (dictUpdate d m).map Prod.fst ↔
        a ∈ d.map Prod.fst ∨ a ∈ m.map Prod.fst := by
  intro m
  induction m with
  | nil =>
    intro d a
    simp [dictUpdate]
  | cons p rest ih =>
    intro d a
    obtain ⟨k, v⟩ := p
    have h1 : dictUpdate d ((k, v) :: rest) =
        dictUpdate (dictSet d k v) rest := rfl
    rw [h1, ih, mem_dictSet_keys]
    simp only [List.map_cons, List.mem_cons]
    tauto

theorem dictUpdate_keys_nodup {α : Type} :
    ∀ (m d : List (String × α)), (d.map Prod.fst).Nodup →
      ((dictUpdate d m).map Prod.fst).Nodup := by
  intro m
  induction m with
  | nil =>
    intro d h
    exact h
  | cons p rest ih =>
    intro d h
    obtain ⟨k, v⟩ := p
    exact ih (dictSet d k v) (dictSet_keys_nodup d k v h)

theorem foldl_dictUpdate_keys_nodup {α : Type} :
    ∀ (L : List (List (String × α))) (acc : List (String × α)),
      (acc.map Prod.fst).Nodup →
      ((L.foldl dictUpdate acc).map Prod.fst).Nodup := by
  intro L
  induction L with
  | nil =>
    intro acc h
    exact h
  | cons m rest ih =>
    intro acc h
    exact ih (dictUpdate acc m) (dictUpdate_keys_nodup m acc h)

theorem mem_foldl_dictUpdate_keys {α : Type} :
    ∀ (L : List (List (String × α))) (acc : List (String × α)) (a : String),
      a ∈ (L.foldl dictUpdate acc).map Prod.fst ↔
        a ∈ acc.map Prod.fst ∨ ∃ m ∈ L, a ∈ m.map Prod.fst := by
  intro L
  induction L with
  | nil =>
    intro acc a
    simp
  | cons m rest ih =>
    intro acc a
    rw [List.foldl_cons, ih, mem_dictUpdate_keys]
    simp only [List.mem_cons]
    constructor
    · rintro ((h | h) | ⟨m', hm', h⟩)
      · exact Or.inl h
      · exact Or.inr ⟨m, Or.inl rfl, h⟩
      · exact Or.inr ⟨m', Or.inr hm', h⟩
    · rintro (h | ⟨m', (rfl | hm'), h⟩)
      · exact Or.inl (Or.inl h)
      · exact Or.inl (Or.inr h)
      · exact Or.inr ⟨m', hm', h⟩

theorem chainFind_eq_of_disjoint {α : Type} :
    ∀ (maps : List (List (String × α))),
      (∀ m ∈ maps, (m.map Prod.fst).Nodup) →
      maps.Pairwise
        (fun m1 m2 => ∀ k ∈ m1.map Prod.fst, k ∉ m2.map Prod.fst) →
      ∀ m ∈ maps, ∀ p ∈ m, chainFind maps p.1 = some p.2 := by
  intro maps
  induction maps with
  | nil =>
    intro _ _ m hm
    simp at hm
  | cons m0 rest ih =>
    intro hnd hdisj m hm p hp
    rw [List.pairwise_cons] at hdisj
    rcases List.mem_cons.mp hm with rfl | hmem
    · have hg : dictGet m p.1 = some p.2 :=
        dictGet_of_mem_nodup (hnd m (List.mem_cons_self _ _)) hp
      simp [chainFind, hg]
    · have hnotin : p.1 ∉ m0.map Prod.fst := by
        intro hc
        exact hdisj.1 m hmem p.1 hc (List.mem_map_of_mem Prod.fst hp)
      have h0 : dictGet m0 p.1 = Option.none := dictGet_eq_none hnotin
      simp only [chainFind, h0]
      exact ih (fun m' hm' => hnd m' (List.mem_cons_of_mem _ hm'))
        hdisj.2 m hmem p hp

theorem filterMap_chainFind_id {α : Type}
    (maps : List (List (String × α))) :
    ∀ (l : List (String × α)),
      (∀ p ∈ l, chainFind maps p.1 = some p.2) →
      l.filterMap (fun p => (chainFind maps p.1).map (fun v => (p.1, v))) = l := by
  intro l
  induction l with
  | nil =>
    intro _
    simp
  | cons p rest ih =>
    intro h
    have hp := h p (List.mem_cons_self _ _)
    simp [List.filterMap_cons, hp,
      ih (fun q hq => h q (List.mem_cons_of_mem _ hq))]

theorem foldl_dictUpdate_flatten {α : Type} :
    ∀ (L : List (List (String × α))) (acc : List (String × α)),
      (∀ m ∈ L, (m.map Prod.fst).Nodup) →
      L.Pairwise (fun m1 m2 => ∀ k ∈ m1.map Prod.fst, k ∉ m2.map Prod.fst) →
      (∀ m ∈ L, ∀ k ∈ m.map Prod.fst, k ∉ acc.map Prod.fst) →
      L.foldl dictUpdate acc = acc ++ L.flatten := by
  intro L
  induction L with
  | nil =>
    intro acc _ _ _
    simp
  | cons m rest ih =>
    intro acc hnd hdisj hacc
    rw [List.pairwise_cons] at hdisj
    have h1 : dictUpdate acc m = acc ++ m :=
      dictUpdate_disjoint m acc (hnd m (List.mem_cons_self _ _))
        (hacc m (List.mem_cons_self _ _))
    rw [List.foldl_cons, h1]
    rw [ih (acc ++ m) (fun m' hm' => hnd m' (List.mem_cons_of_mem _ hm'))
      hdisj.2 ?_]
    · simp
    · intro m' hm' k hk
      simp only [List.map_append, List.mem_append]
      push_neg
      refine ⟨hacc m' (List.mem_cons_of_mem _ hm') k hk, ?_⟩
      intro hc
      exact hdisj.1 m' hm' k hc hk

theorem dictOfChainMap_of_disjoint {α : Type}
    (maps : List (List (String × α)))
    (hnd : ∀ m ∈ maps, (m.map Prod.fst).Nodup)
    (hdisj : maps.Pairwise
      (fun m1 m2 => ∀ k ∈ m1.map Prod.fst, k ∉ m2.map Prod.fst)) :
    dictOfChainMap maps = maps.reverse.flatten := by
  have hrevnd : ∀ m ∈ maps.reverse, (m.map Prod.fst).Nodup := by
    intro m hm
    exact hnd m (List.mem_reverse.mp hm)
  have hrevdisj : maps.reverse.Pairwise
      (fun m1 m2 => ∀ k ∈ m1.map Prod.fst, k ∉ m2.map Prod.fst) := by
    rw [List.pairwise_reverse]
    apply hdisj.imp
    intro a b hab k hk hkb
    exact hab k hkb hk
  have hbase : maps.reverse.foldl dictUpdate [] = maps.reverse.flatten := by
    have := foldl_dictUpdate_flatten maps.reverse [] hrevnd hrevdisj (by simp)
    simpa using this
  unfold dictOfChainMap
  rw [hbase]
  apply filterMap_chainFind_id
  intro p hp
  obtain ⟨m, hm, hpm⟩ := List.mem_flatten.mp hp
  exact chainFind_eq_of_disjoint maps hnd hdisj m (List.mem_reverse.mp hm) p hpm

/-! ## Claim C2: counting distinct names -/

theorem mem_unionAll (L : List (Finset String)) (a : String) :
    a ∈ unionAll L ↔ ∃ s ∈ L, a ∈ s := by
  induction L with
  | nil => simp [unionAll]
  | cons s rest ih =>
    have h : unionAll (s :: rest) = s ∪ unionAll rest := rfl
    rw [h, Finset.mem_union, ih]
    simp

theorem subset_unionAll (L : List (Finset String)) (s : Finset String)
    (h : s ∈ L) : s ⊆ unionAll L := by
  intro a ha
  exact (mem_unionAll L a).mpr ⟨s, h, ha⟩

theorem card_unionAll_le (L : List (Finset String)) :
    (unionAll L).card ≤ (L.map Finset.card).sum := by
  induction L with
  | nil => simp [unionAll]
  | cons s rest ih =>
    have h : unionAll (s :: rest) = s ∪ unionAll rest := rfl
    rw [h]
    calc (s ∪ unionAll rest).card
        ≤ s.card + (unionAll rest).card := Finset.card_union_le _ _
      _ ≤ s.card + (rest.map Finset.card).sum := Nat.add_le_add_left ih _
      _ = ((s :: rest).map Finset.card).sum := by simp

theorem card_unionAll_lt (L : List (Finset String))
    (h : ¬ L.Pairwise (fun s t => Disjoint s t)) :
    (unionAll L).card < (L.map Finset.card).sum := by
  induction L with
  | nil => exact absurd List.Pairwise.nil h
  | cons s rest ih =>
    have hcons : unionAll (s :: rest) = s ∪ unionAll rest := rfl
    rw [List.pairwise_cons] at h
    rcases Classical.em (∀ t ∈ rest, Disjoint s t) with hall | hnall
    · have hrest : ¬ rest.Pairwise (fun s t => Disjoint s t) :=
        fun hc => h ⟨hall, hc⟩
      have h1 := Finset.card_union_le s (unionAll rest)
      have h2 := ih hrest
      rw [hcons]
      simp only [List.map_cons, List.sum_cons]
      omega
    · push_neg at hnall
      obtain ⟨t, ht, hdt⟩ := hnall
      have hsub : t ⊆ unionAll rest := subset_unionAll rest t ht
      have hnd2 : ¬ Disjoint s (unionAll rest) := by
        intro hc
        exact hdt (Finset.disjoint_of_subset_right hsub hc)
      have hne := Finset.not_disjoint_iff_nonempty_inter.mp hnd2
      have hcard := Finset.card_union_add_card_inter s (unionAll rest)
      have hpos : 0 < (s ∩ unionAll rest).card := Finset.card_pos.mpr hne
      have hle := card_unionAll_le rest
      rw [hcons]
      simp only [List.map_cons, List.sum_cons]
      omega


/-! ## Claim C2: splitting a merged resolution run into per-class runs -/

theorem dictPop_miss {α : Type} :
    ∀ (d : List (String × α)) (k : String), k ∉ d.map Prod.fst →
      dictPop d k = (Option.none, d) := by
  intro d
  induction d with
  | nil =>
    intro k _
    rfl
  | cons p rest ih =>
    intro k hk
    obtain ⟨k', v'⟩ := p
    simp only [List.map_cons, List.mem_cons] at hk
    push_neg at hk
    have hne : k' ≠ k := Ne.symm hk.1
    simp [dictPop, hne, ih k hk.2]

theorem dictPop_append_fst {α : Type} :
    ∀ (f1 f2 : List (String × α)) (k : String), k ∉ f2.map Prod.fst →
      (dictPop (f1 ++ f2) k).1 = (dictPop f1 k).1 := by
  intro f1
  induction f1 with
  | nil =>
    intro f2 k hk
    rw [List.nil_append, dictPop_miss f2 k hk]
    rfl
  | cons p rest ih =>
    intro f2 k hk
    obtain ⟨k', v'⟩ := p
    by_cases he : k' = k
    · simp [dictPop, he]
    · simp [dictPop, he, ih f2 k hk]

theorem dictPop_append_snd {α : Type} :
    ∀ (f1 f2 : List (String × α)) (k : String), k ∉ f2.map Prod.fst →
      (dictPop (f1 ++ f2) k).2 = (dictPop f1 k).2 ++ f2 := by
  intro f1
  induction f1 with
  | nil =>
    intro f2 k hk
    rw [List.nil_append, dictPop_miss f2 k hk]
    rfl
  | cons p rest ih =>
    intro f2 k hk
    obtain ⟨k', v'⟩ := p
    by_cases he : k' = k
    · simp [dictPop, he]
    · simp [dictPop, he, ih f2 k hk]

theorem dictSet_append_left {α : Type} :
    ∀ (acc0 d : List (String × α)) (k : String) (v : α),
      k ∉ acc0.map Prod.fst →
      dictSet (acc0 ++ d) k v = acc0 ++ dictSet d k v := by
  intro acc0
  induction acc0 with
  | nil =>
    intro d k v _
    rfl
  | cons p rest ih =>
    intro d k v hk
    obtain ⟨k', v'⟩ := p
    simp only [List.map_cons, List.mem_cons] at hk
    push_neg at hk
    have hne : k' ≠ k := Ne.symm hk.1
    simp [dictSet, hne, ih d k v hk.2]

theorem createColsGo_mono (ao : Bool) :
    ∀ (annots : List (String × DType))
      (fields : List (String × ColumnDefinition))
      (acc res : List (String × ColumnSchema)),
      createColsGo ao annots fields acc = .ok res →
      ∀ k ∈ acc.map Prod.fst, k ∈ res.map Prod.fst := by
  intro annots
  induction annots with
  | nil =>
    intro fields acc res h k hk
    by_cases hf : fields = []
    · subst hf
      simp [createColsGo] at h
      rw [← h]
      exact hk
    · simp [createColsGo, hf] at h
  | cons hd rest ih =>
    intro fields acc res h k hk
    obtain ⟨n, d⟩ := hd
    simp only [createColsGo] at h
    by_cases hc : d ≠ ((((dictPop fields n).1.getD
        { dtype := some d }).dtype).getD d)
    · rw [if_pos hc] at h
      simp at h
    · rw [if_neg hc] at h
      refine ih (dictPop fields n).2 _ res h k ?_
      rw [mem_dictSet_keys]
      exact Or.inl hk

theorem createColsGo_split (ao : Bool) :
    ∀ (a1 : List (String × DType)) (f1 : List (String × ColumnDefinition))
      (accS cols1 : List (String × ColumnSchema)),
      createColsGo ao a1 f1 accS = .ok cols1 →
      ∀ (a2 : List (String × DType)) (f2 : List (String × ColumnDefinition))
        (acc0 : List (String × ColumnSchema)),
        (∀ n ∈ a1.map Prod.fst, n ∉ f2.map Prod.fst) →
        (∀ k ∈ cols1.map Prod.fst, k ∉ acc0.map Prod.fst) →
        createColsGo ao (a1 ++ a2) (f1 ++ f2) (acc0 ++ accS) =
          createColsGo ao a2 f2 (acc0 ++ cols1) := by
  intro a1
  induction a1 with
  | nil =>
    intro f1 accS cols1 h1 a2 f2 acc0 hdisj hkeys
    by_cases hf : f1 = []
    · subst hf
      simp only [createColsGo, if_pos rfl] at h1
      have h1' : accS = cols1 := by
        simpa [createColsGo] using h1
      subst h1'
      simp
    · simp [createColsGo, hf] at h1
  | cons hd a1' ih =>
    intro f1 accS cols1 h1 a2 f2 acc0 hdisj hkeys
    obtain ⟨n, d⟩ := hd
    have hnf2 : n ∉ f2.map Prod.fst :=
      hdisj n (by simp)
    simp only [createColsGo] at h1
    by_cases hc : d ≠ ((((dictPop f1 n).1.getD
        { dtype := some d }).dtype).getD d)
    · rw [if_pos hc] at h1
      simp at h1
    · rw [if_neg hc] at h1
      have hrin : ((((dictPop f1 n).1.getD
            { dtype := some d }).name).getD n) ∈ cols1.map Prod.fst := by
        refine createColsGo_mono ao a1' (dictPop f1 n).2 _ cols1 h1 _ ?_
        rw [mem_dictSet_keys]
        exact Or.inr rfl
      have hrnotacc : ((((dictPop f1 n).1.getD
            { dtype := some d }).name).getD n) ∉ acc0.map Prod.fst :=
        hkeys _ hrin
      simp only [List.cons_append, createColsGo,
        dictPop_append_fst f1 f2 n hnf2, dictPop_append_snd f1 f2 n hnf2]
      rw [if_neg hc]
      rw [dictSet_append_left acc0 accS _ _ hrnotacc]
      exact ih (dictPop f1 n).2 _ cols1 h1 a2 f2 acc0
        (fun m hm => hdisj m (List.mem_cons_of_mem _ hm)) hkeys

theorem mem_flatten_keys {α : Type} (L : List (List (String × α)))
    (k : String) :
    k ∈ (L.flatten.map Prod.fst) ↔ ∃ m ∈ L, k ∈ m.map Prod.fst := by
  rw [List.map_flatten]
  rw [List.mem_flatten]
  constructor
  · rintro ⟨l, hl, hk⟩
    obtain ⟨m, hm, rfl⟩ := List.mem_map.mp hl
    exact ⟨m, hm, hk⟩
  · rintro ⟨m, hm, hk⟩
    exact ⟨m.map Prod.fst, List.mem_map_of_mem _ hm, hk⟩

theorem createColsGo_segments :
    ∀ (classes : List SchemaClass)
      (colss : List (List (String × ColumnSchema))),
      List.Forall₂ (fun c cols =>
        _create_column_definitions false c.annots c.fields = .ok cols)
        classes colss →
      (∀ c ∈ classes, ∀ f ∈ c.fields, f.1 ∈ c.annots.map Prod.fst) →
      classes.Pairwise (fun c c' => ∀ n ∈ c.annots.map Prod.fst,
        n ∉ c'.annots.map Prod.fst) →
      colss.Pairwise (fun cols cols' => ∀ n ∈ cols.map Prod.fst,
        n ∉ cols'.map Prod.fst) →
      ∀ acc : List (String × ColumnSchema),
        (∀ cols ∈ colss, ∀ k ∈ cols.map Prod.fst, k ∉ acc.map Prod.fst) →
        createColsGo false (classes.map SchemaClass.annots).flatten
          (classes.map SchemaClass.fields).flatten acc =
          .ok (acc ++ colss.flatten) := by
  intro classes colss hres
  induction hres with
  | nil =>
    intro _ _ _ acc _
    simp [createColsGo]
  | @cons c cols cs colss' hR htail ih =>
    intro hfsub hpA hpC acc hacc
    rw [List.pairwise_cons] at hpA hpC
    have hdisj : ∀ n ∈ c.annots.map Prod.fst,
        n ∉ ((cs.map SchemaClass.fields).flatten).map Prod.fst := by
      intro n hn hc
      obtain ⟨m, hm, hnm⟩ := (mem_flatten_keys _ n).mp hc
      obtain ⟨c', hc', rfl⟩ := List.mem_map.mp hm
      obtain ⟨f, hf, rfl⟩ := List.mem_map.mp hnm
      exact hpA.1 c' hc' f.1 hn
        (hfsub c' (List.mem_cons_of_mem _ hc') f hf)
    have hkeys : ∀ k ∈ cols.map Prod.fst, k ∉ acc.map Prod.fst :=
      hacc cols (List.mem_cons_self _ _)
    have hsplit := createColsGo_split false c.annots c.fields [] cols hR
      (cs.map SchemaClass.annots).flatten
      (cs.map SchemaClass.fields).flatten acc hdisj hkeys
    rw [List.append_nil] at hsplit
    simp only [List.map_cons, List.flatten_cons]
    rw [hsplit]
    rw [ih (fun c' hc' => hfsub c' (List.mem_cons_of_mem _ hc'))
      hpA.2 hpC.2 (acc ++ cols) ?_]
    · simp
    · intro cols' hcols' k hk
      simp only [List.map_append, List.mem_append]
      push_neg
      constructor
      · exact hacc cols' (List.mem_cons_of_mem _ hcols') k hk
      · intro hc
        exact hpC.1 cols' hcols' k hc hk

/-! ## Claim C2: the main theorem -/

/-- C2 (amended): `schema_add`'s duplicate detection operates on the merged
class **attribute**-name dicts, not on resolved column names. Given each
input class's own resolution result (`hres`), inputs with pairwise-disjoint
attribute names whose resolved column name sets are also pairwise disjoint
produce the concatenation of the inputs' resolved columns in reversed input
order — a column name set exactly the union of the inputs' column sets —
while any shared attribute name trips the bare `assert`, an
`AssertionError` carrying no message and naming no identifiers. (When a
rename makes resolved column names collide despite disjoint attribute
names, the code silently overwrites instead; see the counterexample.) -/
theorem schema_add_characterization (classes : List SchemaClass)
    (colss : List (List (String × ColumnSchema)))
    (hres : List.Forall₂ (fun c cols =>
      _create_column_definitions false c.annots c.fields = .ok cols)
      classes colss)
    (hann : ∀ c ∈ classes, (c.annots.map Prod.fst).Nodup)
    (hfnd : ∀ c ∈ classes, (c.fields.map Prod.fst).Nodup)
    (hfsub : ∀ c ∈ classes, ∀ f ∈ c.fields, f.1 ∈ c.annots.map Prod.fst) :
    (((classes.map (fun c => c.annots.map Prod.fst)).Pairwise
        (fun a b => ∀ n ∈ a, n ∉ b)) →
      ((colss.map (fun cols => cols.map Prod.fst)).Pairwise
        (fun a b => ∀ n ∈ a, n ∉ b)) →
      schema_add classes =
        .ok { props := {}, columns := colss.reverse.flatten } ∧
      (∀ n, n ∈ (colss.reverse.flatten).map Prod.fst ↔
        ∃ cols ∈ colss, n ∈ cols.map Prod.fst)) ∧
    ((¬ (classes.map (fun c => c.annots.map Prod.fst)).Pairwise
        (fun a b => ∀ n ∈ a, n ∉ b)) →
      schema_add classes = .error .bareAssert) := by
  have hndA : ∀ m ∈ classes.map SchemaClass.annots,
      (m.map Prod.fst).Nodup := by
    intro m hm
    obtain ⟨c, hc, rfl⟩ := List.mem_map.mp hm
    exact hann c hc
  have hfsub' : ∀ c ∈ classes, ∀ n ∈ c.fields.map Prod.fst,
      n ∈ c.annots.map Prod.fst := by
    intro c hc n hn
    obtain ⟨f, hf, rfl⟩ := List.mem_map.mp hn
    exact hfsub c hc f hf
  constructor
  · intro hdisjK hdisjC
    have hdisjCl : classes.Pairwise (fun c c' =>
        ∀ n ∈ c.annots.map Prod.fst, n ∉ c'.annots.map Prod.fst) := by
      rw [List.pairwise_map] at hdisjK
      exact hdisjK
    have hdisjColsl : colss.Pairwise (fun cols cols' =>
        ∀ n ∈ cols.map Prod.fst, n ∉ cols'.map Prod.fst) := by
      rw [List.pairwise_map] at hdisjC
      exact hdisjC
    have hdisjA : (classes.map SchemaClass.annots).Pairwise
        (fun m1 m2 => ∀ k ∈ m1.map Prod.fst, k ∉ m2.map Prod.fst) := by
      rw [List.pairwise_map]
      exact hdisjCl
    have hdisjFl : classes.Pairwise (fun c c' =>
        ∀ n ∈ c.fields.map Prod.fst, n ∉ c'.fields.map Prod.fst) := by
      refine List.Pairwise.imp_of_mem ?_ hdisjCl
      intro c c' hc hc' h n hn hn'
      exact h n (hfsub' c hc n hn) (hfsub' c' hc' n hn')
    have hdisjF : (classes.map SchemaClass.fields).Pairwise
        (fun m1 m2 => ∀ k ∈ m1.map Prod.fst, k ∉ m2.map Prod.fst) := by
      rw [List.pairwise_map]
      exact hdisjFl
    have hndF : ∀ m ∈ classes.map SchemaClass.fields,
        (m.map Prod.fst).Nodup := by
      intro m hm
      obtain ⟨c, hc, rfl⟩ := List.mem_map.mp hm
      exact hfnd c hc
    have hchainA : dictOfChainMap (classes.map SchemaClass.annots) =
        (classes.map SchemaClass.annots).reverse.flatten :=
      dictOfChainMap_of_disjoint _ hndA hdisjA
    have hchainF : dictOfChainMap (classes.map SchemaClass.fields) =
        (classes.map SchemaClass.fields).reverse.flatten :=
      dictOfChainMap_of_disjoint _ hndF hdisjF
    have hlenA : ((classes.map SchemaClass.annots).reverse.flatten).length =
        ((classes.map SchemaClass.annots).map List.length).sum := by
      rw [List.length_flatten, List.map_reverse, List.sum_reverse]
    have hlenF : ((classes.map SchemaClass.fields).reverse.flatten).length =
        ((classes.map SchemaClass.fields).map List.length).sum := by
      rw [List.length_flatten, List.map_reverse, List.sum_reverse]
    have hcond1 : ¬ ((dictOfChainMap (classes.map SchemaClass.annots)).length ≠
        ((classes.map SchemaClass.annots).map List.length).sum) := by
      rw [hchainA, hlenA]
      exact fun hc => hc rfl
    have hcond2 : ¬ ((dictOfChainMap (classes.map SchemaClass.fields)).length ≠
        ((classes.map SchemaClass.fields).map List.length).sum) := by
      rw [hchainF, hlenF]
      exact fun hc => hc rfl
    have hresR : List.Forall₂ (fun c cols =>
        _create_column_definitions false c.annots c.fields = .ok cols)
        classes.reverse colss.reverse :=
      List.forall₂_reverse_iff.mpr hres
    have hfsubR : ∀ c ∈ classes.reverse, ∀ f ∈ c.fields,
        f.1 ∈ c.annots.map Prod.fst :=
      fun c hc => hfsub c (List.mem_reverse.mp hc)
    have hdisjClR : classes.reverse.Pairwise (fun c c' =>
        ∀ n ∈ c.annots.map Prod.fst, n ∉ c'.annots.map Prod.fst) := by
      rw [List.pairwise_reverse]
      apply hdisjCl.imp
      intro a b hab n hn hn'
      exact hab n hn' hn
    have hdisjColsR : colss.reverse.Pairwise (fun cols cols' =>
        ∀ n ∈ cols.map Prod.fst, n ∉ cols'.map Prod.fst) := by
      rw [List.pairwise_reverse]
      apply hdisjColsl.imp
      intro a b hab n hn hn'
      exact hab n hn' hn
    have hseg := createColsGo_segments classes.reverse colss.reverse
      hresR hfsubR hdisjClR hdisjColsR [] (by simp)
    have hccd : _create_column_definitions false
        ((classes.reverse.map SchemaClass.annots).flatten)
        ((classes.reverse.map SchemaClass.fields).flatten) =
        .ok ([] ++ colss.reverse.flatten) := hseg
    constructor
    · simp only [schema_add]
      rw [if_neg hcond1, if_neg hcond2, hchainA, hchainF,
        ← List.map_reverse, ← List.map_reverse, hccd]
      simp
    · intro n
      rw [mem_flatten_keys]
      constructor
      · rintro ⟨m, hm, h⟩
        exact ⟨m, List.mem_reverse.mp hm, h⟩
      · rintro ⟨m, hm, h⟩
        exact ⟨m, List.mem_reverse.mpr hm, h⟩
  · intro hshare
    have hface : ¬ ((classes.map SchemaClass.annots).map keyFinset).Pairwise
        (fun s t => Disjoint s t) := by
      intro hc
      apply hshare
      rw [List.pairwise_map] at hc
      rw [List.pairwise_map] at hc
      rw [List.pairwise_map]
      apply hc.imp
      intro a b hab n hna hnb
      have h1 : n ∈ keyFinset a.annots := by
        rw [keyFinset, List.mem_toFinset]
        exact hna
      have h2 : n ∈ keyFinset b.annots := by
        rw [keyFinset, List.mem_toFinset]
        exact hnb
      exact (Finset.disjoint_left.mp hab h1) h2
    have hb1 : (dictOfChainMap (classes.map SchemaClass.annots)).length ≤
        ((classes.map SchemaClass.annots).reverse.foldl dictUpdate []).length :=
      List.length_filterMap_le _ _
    have hb2 : (((classes.map SchemaClass.annots).reverse.foldl
        dictUpdate []).map Prod.fst).Nodup :=
      foldl_dictUpdate_keys_nodup _ [] (by simp)
    have hb4 : (((classes.map SchemaClass.annots).reverse.foldl
        dictUpdate []).map Prod.fst).toFinset =
        unionAll ((classes.map SchemaClass.annots).map keyFinset) := by
      apply Finset.ext
      intro a
      rw [List.mem_toFinset, mem_foldl_dictUpdate_keys, mem_unionAll]
      constructor
      · rintro (h | ⟨m, hm, h⟩)
        · simp at h
        · refine ⟨keyFinset m,
            List.mem_map_of_mem keyFinset (List.mem_reverse.mp hm), ?_⟩
          rw [keyFinset, List.mem_toFinset]
          exact h
      · rintro ⟨fs, hfs, hafs⟩
        obtain ⟨m, hm, rfl⟩ := List.mem_map.mp hfs
        right
        refine ⟨m, List.mem_reverse.mpr hm, ?_⟩
        rw [keyFinset, List.mem_toFinset] at hafs
        exact hafs
    have hb5 : ((classes.map SchemaClass.annots).reverse.foldl
        dictUpdate []).length =
        (unionAll ((classes.map SchemaClass.annots).map keyFinset)).card := by
      rw [← hb4, List.toFinset_card_of_nodup hb2, List.length_map]
    have hb6 := card_unionAll_lt
      ((classes.map SchemaClass.annots).map keyFinset) hface
    have hb7 : (((classes.map SchemaClass.annots).map keyFinset).map
        Finset.card).sum =
        ((classes.map SchemaClass.annots).map List.length).sum := by
      rw [List.map_map]
      apply congrArg List.sum
      apply List.map_congr_left
      intro m hm
      have : (keyFinset m).card = m.length := by
        rw [keyFinset, List.toFinset_card_of_nodup (hndA m hm),
          List.length_map]
      simpa using this
    have hlt : (dictOfChainMap (classes.map SchemaClass.annots)).length <
        ((classes.map SchemaClass.annots).map List.length).sum := by
      calc (dictOfChainMap (classes.map SchemaClass.annots)).length
          ≤ ((classes.map SchemaClass.annots).reverse.foldl
              dictUpdate []).length := hb1
        _ = (unionAll ((classes.map SchemaClass.annots).map
              keyFinset)).card := hb5
        _ < (((classes.map SchemaClass.annots).map keyFinset).map
              Finset.card).sum := hb6
        _ = ((classes.map SchemaClass.annots).map List.length).sum := hb7
    simp only [schema_add]
    rw [if_pos (Nat.ne_of_lt hlt)]

/-- C2 counterexample, both failure modes of the claimed structured
duplicate-column error. First conjunct: two classes both resolving to
column `x` (shared attribute name) trip the bare `assert`, an
`AssertionError` naming no identifiers. Second conjunct: a class whose
attribute `a` is renamed to column `x` added to a class with column `x`
passes both asserts (attribute names `a`, `x` are disjoint) and the merged
resolution **silently overwrites** the `x: str` column with the renamed
`x: int` one — no error of any kind, although the two inputs share column
name `x`. -/
theorem schema_add_duplicate_cex :
    schema_add [clsX, clsXstr] = .error .bareAssert ∧
    schema_add [clsRenamed, clsXstr] = .ok
      { props := {}
        columns := [("x", { primary_key := false
                            default_value := .undefinedMarker
                            dtype := .INT
                            name := "x"
                            append_only := false })] } := by
  constructor
  · rfl
  · rfl

/-- Witness for the amended C2 at the attribute- and column-disjoint pair
`{x: int}`, `{y: int}`. -/
theorem schema_add_characterization_witness :
    schema_add [clsX, clsY] = .ok
      { props := {}
        columns := ([[("x", intCol "x")], [("y", intCol "y")]] :
          List (List (String × ColumnSchema))).reverse.flatten } ∧
    (∀ n, n ∈ (([[("x", intCol "x")], [("y", intCol "y")]] :
        List (List (String × ColumnSchema))).reverse.flatten).map Prod.fst ↔
      ∃ cols ∈ ([[("x", intCol "x")], [("y", intCol "y")]] :
        List (List (String × ColumnSchema))), n ∈ cols.map Prod.fst) :=
  (schema_add_characterization [clsX, clsY]
    [[("x", intCol "x")], [("y", intCol "y")]]
    (List.Forall₂.cons (by rfl) (List.Forall₂.cons (by rfl) List.Forall₂.nil))
    (by decide) (by decide) (by decide)).1 (by decide) (by decide)

end Pathway
